import Mathlib

/-!
Verification development for the SailingCup targeting and actuation loop.

Each Python module of the repository is shallow-embedded into Lean:
pure computations become Lean functions over `ℚ` (Python floats are
modelled as exact rationals, `np.sqrt` as `Real.sqrt`), stateful methods
become explicit state-passing functions or fold-based step machines, and
code that can raise returns `Except`.
-/

/-! ## Data model -/

/-- A bounding box `[x1, y1, x2, y2]` in pixel coordinates (y-down). -/
structure Box where
  x1 : ℚ
  y1 : ℚ
  x2 : ℚ
  y2 : ℚ
deriving DecidableEq

/-! ## `src/main.py`: AngleCalculator and MainController.process_detection -/

namespace Main

/-- Constant `IMAGE_WIDTH = 1920` from `src/main.py`. -/
def IMAGE_WIDTH : ℚ := 1920

/-- Constant `IMAGE_HEIGHT = 1080` from `src/main.py`. -/
def IMAGE_HEIGHT : ℚ := 1080

/-- Constant `CAMERA_H_FOV = 85` from `src/main.py`. -/
def CAMERA_H_FOV : ℚ := 85

/-- Constant `CAMERA_V_FOV = CAMERA_H_FOV * (9/16)` from `src/main.py`. -/
def CAMERA_V_FOV : ℚ := CAMERA_H_FOV * (9 / 16)

/-- Embedding of `AngleCalculator.pixel_to_angle` (`src/main.py`, lines 236-257):
shifts the pixel to image-center origin (inverting the y axis) and scales
each offset by the half field of view over the half image dimension. -/
def pixel_to_angle (pixel_x pixel_y : ℚ) : ℚ × ℚ :=
  let x := pixel_x - IMAGE_WIDTH / 2
  let y := IMAGE_HEIGHT / 2 - pixel_y
  ((x / (IMAGE_WIDTH / 2)) * (CAMERA_H_FOV / 2),
   (y / (IMAGE_HEIGHT / 2)) * (CAMERA_V_FOV / 2))

/-- Embedding of `AngleCalculator.calculate_target_center` (`src/main.py`): the bbox
center `((x1+x2)/2, (y1+y2)/2)`. -/
def calculate_target_center (bbox : Box) : ℚ × ℚ :=
  ((bbox.x1 + bbox.x2) / 2, (bbox.y1 + bbox.y2) / 2)

/-- One detection dictionary as consumed by
`MainController.process_detection`: a class id, a track id and a bbox. -/
structure Detection where
  cls : Nat
  id : Nat
  bbox : Box
deriving DecidableEq

/-- The pixel distance from a detection's bbox center to the image center,
`np.sqrt((x_center - IMAGE_WIDTH/2)**2 + (y_center - IMAGE_HEIGHT/2)**2)`
(`src/main.py`, line 380). The squared quantity is rational; the final
square root lives in `ℝ`. -/
noncomputable def detDistance (d : Detection) : ℝ :=
  Real.sqrt ((((calculate_target_center d.bbox).1 - IMAGE_WIDTH / 2) ^ 2 +
      ((calculate_target_center d.bbox).2 - IMAGE_HEIGHT / 2) ^ 2 : ℚ) : ℝ)

open Classical in
/-- One iteration of the `for detection in detections` loop of
`MainController.process_detection` (`src/main.py`, lines 377-384): a `none`
accumulator stands for `min_distance = inf`, so the first class-0 detection
is always taken; afterwards a detection replaces the best one only when its
distance is strictly smaller. -/
noncomputable def selectStep (acc : Option Detection) (d : Detection) : Option Detection :=
  if d.cls = 0 then
    match acc with
    | none => some d
    | some b => if detDistance d < detDistance b then some d else some b
  else acc

/-- The target chosen by the selection loop of
`MainController.process_detection` over the whole detection list. -/
noncomputable def selectTarget (detections : List Detection) : Option Detection :=
  detections.foldl selectStep none

/-- Embedding of `MainController.process_detection` (`src/main.py`, lines 368-390):
selects the best target and converts its bbox center to angles. -/
noncomputable def process_detection (detections : List Detection) : Option (ℚ × ℚ) :=
  (selectTarget detections).map fun b =>
    pixel_to_angle (calculate_target_center b.bbox).1 (calculate_target_center b.bbox).2

/-- Reference selection following the amended specification wording: the
detection with minimum center-to-image-center distance, ties broken by the
earliest position in the input list (the recursion prefers the head on
`≤`, so the leftmost minimum wins). -/
noncomputable def firstArgmin : List Detection → Option Detection
  | [] => none
  | d :: rest =>
    match firstArgmin rest with
    | none => some d
    | some b => if detDistance d ≤ detDistance b then some d else some b

end Main

/-! ## `src/mods/Chassis.py`: self-test handshake and turn -/

namespace Chassis

/-- The control position inside `Chassis.self_test`: before the
`SELF_TEST_COMPLETE` sentinel (first read loop), between the two sentinels
(the read loop of `calibrate_gyro`), or after both. -/
inductive CalPhase where
  | waitSelfTest
  | waitGyro
  | finished
deriving DecidableEq

/-- The chassis state observable across the handshake: where the two
nested read loops stand, and the `gyro_calibrated` flag. -/
structure ChassisState where
  phase : CalPhase
  gyro_calibrated : Bool
deriving DecidableEq

/-- Processing one serial response line, as read by the loops of
`Chassis.self_test` (`src/mods/Chassis.py`, lines 58-63) and
`Chassis.calibrate_gyro` (lines 82-88): any line other than the awaited
sentinel is skipped; `"GYRO_CALIBRATED"` sets `gyro_calibrated := True`. -/
def calStep (s : ChassisState) (line : String) : ChassisState :=
  match s.phase with
  | .waitSelfTest =>
      if line = "SELF_TEST_COMPLETE" then ⟨.waitGyro, s.gyro_calibrated⟩ else s
  | .waitGyro =>
      if line = "GYRO_CALIBRATED" then ⟨.finished, true⟩ else s
  | .finished => s

/-- The `Chassis.self_test` handshake run over the sequence of lines the serial endpoint
emits, starting uncalibrated. -/
def self_test_run (lines : List String) : ChassisState :=
  lines.foldl calStep ⟨.waitSelfTest, false⟩

/-- Embedding of `Chassis.turn` (`src/mods/Chassis.py`, lines 93-113): raises when
`gyro_calibrated` is false, otherwise clamps the angle to
`[MIN_ANGLE, MAX_ANGLE] = [-180, 180]` and sends `TURN <angle>`; the `ok`
payload is the clamped angle actually sent. -/
def turn (s : ChassisState) (angle : ℚ) : Except String ℚ :=
  if s.gyro_calibrated = false then
    .error "gyro not calibrated, run self test first"
  else
    .ok (max (-180) (min 180 angle))

end Chassis

/-! ## `src/mods/Gun.py`: adjust and is_aimed -/

namespace Gun

/-- The angle state of `Gun` (`src/mods/Gun.py`): `current_angle` and
`target_angle`, both initially `0.0`. -/
structure GunState where
  current_angle : ℚ
  target_angle : ℚ
deriving DecidableEq

/-- Constant `steps_per_degree`, default `100` (`src/mods/Gun.py`, line 14). -/
def steps_per_degree : ℚ := 100

/-- Embedding of `Gun.adjust` (`src/mods/Gun.py`, lines 84-119): clamps the requested
angle to `[-30, 30]`, records it as `target_angle`, drives the stepper and
waits for it; on normal return `current_angle` is updated to the same
clamped angle.  `deviceOk = false` models any exception raised by the
device interaction, which propagates after `target_angle` was already
set but before `current_angle` is updated; the partially-updated state is
carried by the `error` branch. -/
def adjust (s : GunState) (angle : ℚ) (deviceOk : Bool) : Except GunState GunState :=
  let a := max (-30) (min 30 angle)
  let s1 : GunState := ⟨s.current_angle, a⟩
  if deviceOk then .ok ⟨a, a⟩ else .error s1

/-- Embedding of `Gun.is_aimed` (`src/mods/Gun.py`, lines 121-148): false when the
device is not in position; otherwise both the device position error
(converted from steps to degrees) and the commanded-versus-achieved angle
delta must be within `threshold`.  `in_position` and `error_steps` are the
polled device feedback. -/
def is_aimed (s : GunState) (in_position : Bool) (error_steps : ℤ) (threshold : ℚ) : Bool :=
  if !in_position then false
  else
    decide ((error_steps.natAbs : ℚ) / steps_per_degree ≤ threshold) &&
      decide (|s.current_angle - s.target_angle| ≤ threshold)

end Gun

/-! ## `src/mods/Cap.py`: Camera frame buffer -/

namespace Cap

/-- An image frame: its dimensions plus an opaque content tag
distinguishing frames captured at different times. -/
structure Frame where
  w : Nat
  h : Nat
  tag : Nat
deriving DecidableEq

/-- Embedding of `cv2.resize(frame, (640, 480), ...)` as performed for `quality='LOW'`
(`src/mods/Cap.py`, line 110): the fixed analysis size. -/
def resizeLow (f : Frame) : Frame :=
  ⟨640, 480, f.tag⟩

/-- The producer side `_capture_thread` push (`src/mods/Cap.py`, lines
79-81): with `QUEUE_SIZE = 2`, a full queue drops its front (oldest) frame
before the new frame is appended at the back. -/
def pushFrame (buf : List Frame) (f : Frame) : List Frame :=
  (if 2 ≤ buf.length then buf.tail else buf) ++ [f]

/-- Embedding of `Camera.get_frame` (`src/mods/Cap.py`, lines 86-114): raises
`ValueError` unless `quality` is `'HIGH'` or `'LOW'`; with a valid quality
it returns `None` on an empty buffer, else it pops the queue front (FIFO:
the oldest buffered frame), resized when `quality = 'LOW'`.  Result: the
returned frame plus the buffer after the pop. -/
def get_frame (quality : String) (buf : List Frame) :
    Except String (Option Frame × List Frame) :=
  if quality = "HIGH" ∨ quality = "LOW" then
    match buf with
    | [] => .ok (none, [])
    | f :: rest => .ok (some (if quality = "HIGH" then f else resizeLow f), rest)
  else
    .error "quality must be HIGH or LOW"

end Cap

/-! ## `src/mods/TCP.py`: VideoStreamSender -/

namespace TCP

/-- The mutable state of `VideoStreamSender`: the frame `sequence` counter
and the `connected` flag. -/
structure SenderState where
  sequence : Nat
  connected : Bool
deriving DecidableEq

/-- A 32-bit big-endian encoding, `struct.pack('!I', n)`: four bytes, most
significant first. -/
def be32 (n : Nat) : List Nat :=
  [n / 2 ^ 24 % 256, n / 2 ^ 16 % 256, n / 2 ^ 8 % 256, n % 256]

/-- A 64-bit big-endian encoding: eight bytes, most significant first.
`struct.pack('!d', t)` serializes the IEEE-754 bit pattern of the
timestamp this way; the timestamp enters the model as that 64-bit
pattern. -/
def be64 (n : Nat) : List Nat :=
  [n / 2 ^ 56 % 256, n / 2 ^ 48 % 256, n / 2 ^ 40 % 256, n / 2 ^ 32 % 256,
   n / 2 ^ 24 % 256, n / 2 ^ 16 % 256, n / 2 ^ 8 % 256, n % 256]

/-- Embedding of `struct.pack('!IdI', sequence, timestamp, len(frame_data))`
(`src/mods/TCP.py`, line 73).  `struct.error` is raised (and caught by the
surrounding `except`) when a `!I` field does not fit in 32 bits. -/
def packHeader (seq : Nat) (tsBits : Nat) (len : Nat) : Option (List Nat) :=
  if seq < 2 ^ 32 ∧ len < 2 ^ 32 ∧ tsBits < 2 ^ 64 then
    some (be32 seq ++ be64 tsBits ++ be32 len)
  else
    none

/-- Embedding of `VideoStreamSender.send_frame` (`src/mods/TCP.py`, lines 47-81).
Raises `ValueError` on an empty payload.  When not connected it first
calls `connect` (modelled by `connectOk`); a failed connect returns
`false` without sending.  Inside the `try` block a pack overflow or a
failed `sendall` (modelled by `sendOk`) is caught: the method returns
`false` and clears `connected`.  On success the whole header plus payload
is written and `sequence` is incremented.  Result: the returned boolean,
the new state, and the bytes put on the wire. -/
def send_frame (s : SenderState) (frame_data : List Nat) (tsBits : Nat)
    (connectOk sendOk : Bool) : Except String (Bool × SenderState × List Nat) :=
  if frame_data.isEmpty then .error "frame data must be non-empty"
  else
    let conn : Option SenderState :=
      if s.connected then some s
      else if connectOk then some ⟨s.sequence, true⟩ else none
    match conn with
    | none => .ok (false, ⟨s.sequence, false⟩, [])
    | some s1 =>
      match packHeader s1.sequence tsBits frame_data.length with
      | none => .ok (false, ⟨s1.sequence, false⟩, [])
      | some header =>
        if sendOk then .ok (true, ⟨s1.sequence + 1, s1.connected⟩, header ++ frame_data)
        else .ok (false, ⟨s1.sequence, false⟩, [])

end TCP

/-! ## `src/mods/FireControl.py`: track pool and stability -/

namespace FireControl

/-- One raw YOLO box as consumed by the loop of `FireControl.detect`:
its class, its optional tracker-assigned id (`box.id`), and its bbox. -/
structure BoxDet where
  cls : Nat
  tid? : Option Nat
  bbox : Box
deriving DecidableEq

/-- The mutable state of `FireControl`: `track_history` maps each
`track_id` to its recorded `(timestamp, bbox)` samples (append at the
back, most recent last), and `next_id` is the counter used when a box
carries no id.  The Python `defaultdict` is modelled as an association
list; dict keys are unique, which theorems carry as a `Nodup`
hypothesis. -/
structure TrackerState where
  track_history : List (Nat × List (ℚ × Box))
  next_id : Nat
deriving DecidableEq

/-- The `if len(...) > 10: pop(0)` trim of `FireControl.detect`
(`src/mods/FireControl.py`, lines 75-76): at most the front sample is
dropped after an append. -/
def trimHistory (h : List (ℚ × Box)) : List (ℚ × Box) :=
  if 10 < h.length then h.tail else h

/-- Embedding of `self.track_history[track_id].append(...)` with the trim: the matching
entry gets the new sample appended (and trimmed); an absent id is freshly
inserted with a singleton history. -/
def updatePool (tid : Nat) (e : ℚ × Box) :
    List (Nat × List (ℚ × Box)) → List (Nat × List (ℚ × Box))
  | [] => [(tid, [e])]
  | (i, h) :: rest =>
    if i = tid then (i, trimHistory (h ++ [e])) :: rest
    else (i, h) :: updatePool tid e rest

/-- One iteration of the box loop of `FireControl.detect`
(`src/mods/FireControl.py`, lines 57-89): only class-0 boxes are
processed; a box with an id updates that id's history, a box without one
takes `next_id` and increments it. -/
def processBox (now : ℚ) (s : TrackerState) (b : BoxDet) : TrackerState :=
  if b.cls = 0 then
    match b.tid? with
    | some i => ⟨updatePool i (now, b.bbox) s.track_history, s.next_id⟩
    | none => ⟨updatePool s.next_id (now, b.bbox) s.track_history, s.next_id + 1⟩
  else s

/-- The pool-updating effect of `FireControl.detect` over one batch of
boxes, all stamped with the single `current_time` taken at the top of the
call. -/
def detect (now : ℚ) (s : TrackerState) (boxes : List BoxDet) : TrackerState :=
  boxes.foldl (processBox now) s

/-- The retention test of `FireControl.cleanup_tracks`
(`src/mods/FireControl.py`, line 132): a track survives when
`current_time - history[-1][0] <= 5.0`.  Histories are never empty in any
reachable state; an empty history is evicted. -/
def keepTrack (now : ℚ) (p : Nat × List (ℚ × Box)) : Bool :=
  match p.2.getLast? with
  | some e => decide (now - e.1 ≤ 5)
  | none => false

/-- Embedding of `FireControl.cleanup_tracks` (`src/mods/FireControl.py`, lines
126-137): deletes every track whose last sample is more than 5.0 seconds
old. -/
def cleanup_tracks (now : ℚ) (s : TrackerState) : TrackerState :=
  ⟨s.track_history.filter (keepTrack now), s.next_id⟩

/-- Association-list lookup into `track_history`, the read performed by
`self.track_history[track_id]`. -/
def lookupId (tid : Nat) : List (Nat × List (ℚ × Box)) → Option (List (ℚ × Box))
  | [] => none
  | (i, h) :: rest => if i = tid then some h else lookupId tid rest

/-- The track ids written during one `detect` batch, mirroring the id
assignment of the box loop: explicit ids are used as-is, id-less class-0
boxes consume successive values of `next_id`. -/
def touchedIds (nid : Nat) : List BoxDet → List Nat
  | [] => []
  | b :: bs =>
    if b.cls = 0 then
      match b.tid? with
      | some i => i :: touchedIds nid bs
      | none => nid :: touchedIds (nid + 1) bs
    else touchedIds nid bs

/-- The center of a history sample's bbox, `[(x1+x2)/2, (y1+y2)/2]`
(`src/mods/FireControl.py`, line 114). -/
def centerOf (b : Box) : ℚ × ℚ :=
  ((b.x1 + b.x2) / 2, (b.y1 + b.y2) / 2)

/-- Embedding of `np.std(..., axis=0)` for one coordinate column: the population
standard deviation, the square root of the mean squared deviation from
the mean. -/
noncomputable def stdDev (xs : List ℚ) : ℝ :=
  Real.sqrt (((xs.map fun x => (x - xs.sum / xs.length) ^ 2).sum / xs.length : ℚ) : ℝ)

/-- Embedding of `FireControl._calculate_stability` (`src/mods/FireControl.py`, lines
98-124): `0.0` for a history of fewer than 2 samples; otherwise one minus
the mean of the two per-axis standard deviations of the recorded bbox
centers, normalized by `max_pixel_variation = 50` and clamped at 1. -/
noncomputable def calculate_stability (history : List (ℚ × Box)) : ℝ :=
  if history.length < 2 then 0
  else
    let centers := history.map fun e => centerOf e.2
    let avg_std := (stdDev (centers.map Prod.fst) + stdDev (centers.map Prod.snd)) / 2
    1 - min (avg_std / 50) 1

end FireControl

/-! ## Claim theorems -/

/-- C2: for every pixel coordinate `(cx, cy)`, `pixel_to_angle` returns
exactly `(((cx - W/2)/(W/2))*(Hfov/2), ((H/2 - cy)/(H/2))*(Vfov/2))` with
`W = 1920`, `H = 1080`, `Hfov = 85`, `Vfov = Hfov*9/16` — the vertical
axis inverted — and in particular `(0, 0)` at the image center. -/
theorem c2_pixel_to_angle_formula (cx cy : ℚ) :
    Main.pixel_to_angle cx cy =
      (((cx - 1920 / 2) / (1920 / 2)) * (85 / 2),
       ((1080 / 2 - cy) / (1080 / 2)) * ((85 * (9 / 16)) / 2)) ∧
    Main.pixel_to_angle (1920 / 2) (1080 / 2) = (0, 0) := by
  constructor
  · simp [Main.pixel_to_angle, Main.IMAGE_WIDTH, Main.IMAGE_HEIGHT,
      Main.CAMERA_H_FOV, Main.CAMERA_V_FOV]
  · norm_num [Main.pixel_to_angle, Main.IMAGE_WIDTH, Main.IMAGE_HEIGHT,
      Main.CAMERA_H_FOV, Main.CAMERA_V_FOV]

/-- C5: `Chassis.turn` fails with a distinct error exactly when the gyro
is not calibrated; when calibrated it never raises and silently clamps the
requested angle into the mechanical range `[-180, 180]` before issuing the
TURN command. -/
theorem c5_turn_calibration_gate (s : Chassis.ChassisState) (a : ℚ) :
    ((∃ e, Chassis.turn s a = .error e) ↔ s.gyro_calibrated = false) ∧
    (s.gyro_calibrated = true →
      Chassis.turn s a = .ok (max (-180) (min 180 a)) ∧
      -180 ≤ max (-180 : ℚ) (min 180 a) ∧ max (-180 : ℚ) (min 180 a) ≤ 180) := by
  constructor
  · unfold Chassis.turn
    by_cases h : s.gyro_calibrated = false <;> simp [h]
  · intro h
    refine ⟨by unfold Chassis.turn; rw [h]; simp, le_max_left _ _,
      max_le (by norm_num) (min_le_left _ _)⟩

/-- C5 witness: a calibrated chassis accepts an out-of-range request of
500 degrees without raising, sending the clamped value 180. -/
theorem c5_witness :
    (Chassis.ChassisState.mk .finished true).gyro_calibrated = true ∧
    Chassis.turn ⟨.finished, true⟩ 500 = .ok 180 := by
  have h := (c5_turn_calibration_gate ⟨.finished, true⟩ 500).2 rfl
  refine ⟨rfl, ?_⟩
  rw [h.1]
  norm_num

/-- C6: a target whose recorded position history holds fewer than 2
samples has stability exactly 0 (the confidence of the detection is not
even an input of the computation). -/
theorem c6_stability_zero_below_two_samples (h : List (ℚ × Box))
    (hlen : h.length < 2) : FireControl.calculate_stability h = 0 := by
  unfold FireControl.calculate_stability
  rw [if_pos hlen]

/-- C6 witness: a single-sample history evaluates to stability 0. -/
theorem c6_witness :
    ([((0 : ℚ), (⟨100, 100, 200, 200⟩ : Box))].length < 2) ∧
    FireControl.calculate_stability [((0 : ℚ), ⟨100, 100, 200, 200⟩)] = 0 :=
  ⟨by decide, c6_stability_zero_below_two_samples _ (by decide)⟩

/-- C9: whenever `Gun.adjust` returns normally, `target_angle` and
`current_angle` both equal the clamp of the request to `[-30, 30]`, hence
are equal, so the angle-delta conjunct of `is_aimed` is trivially
satisfied: `is_aimed` then reduces to the device-feedback conjuncts
alone for every nonnegative threshold. -/
theorem c9_adjust_syncs_angles (s : Gun.GunState) (a : ℚ) (s' : Gun.GunState)
    (h : Gun.adjust s a true = .ok s') :
    s'.target_angle = max (-30) (min 30 a) ∧
    s'.current_angle = s'.target_angle ∧
    (∀ inpos : Bool, ∀ err : ℤ, ∀ thr : ℚ, 0 ≤ thr →
      Gun.is_aimed s' inpos err thr =
        (inpos && decide ((err.natAbs : ℚ) / Gun.steps_per_degree ≤ thr))) := by
  unfold Gun.adjust at h
  rw [if_pos rfl] at h
  cases h
  refine ⟨rfl, rfl, ?_⟩
  intro inpos err thr hthr
  unfold Gun.is_aimed
  cases inpos
  · rfl
  · simp [hthr]

/-- C9 witness: adjusting to 45 degrees clamps both angles to 30 and the
delta conjunct of `is_aimed` drops out. -/
theorem c9_witness :
    Gun.adjust ⟨0, 0⟩ 45 true = .ok (⟨30, 30⟩ : Gun.GunState) ∧
    (Gun.GunState.mk 30 30).target_angle = max (-30) (min 30 45) ∧
    (Gun.GunState.mk 30 30).current_angle = (Gun.GunState.mk 30 30).target_angle := by
  have heq : Gun.adjust ⟨0, 0⟩ 45 true = .ok (⟨30, 30⟩ : Gun.GunState) := by
    unfold Gun.adjust
    norm_num
  have h := c9_adjust_syncs_angles ⟨0, 0⟩ 45 ⟨30, 30⟩ heq
  exact ⟨heq, h.1, h.2.1⟩

/-- C7 counterexample: with two buffered frames (tag 0 pushed first, tag 1
most recent), a valid `get_frame` call returns the tag-0 frame — the
oldest, popped from the FIFO front — not the most recent buffered frame,
refuting the "returns the most recent buffered frame" conjunct. -/
theorem c7_counterexample :
    Cap.pushFrame (Cap.pushFrame [] ⟨1280, 720, 0⟩) ⟨1280, 720, 1⟩ =
      [⟨1280, 720, 0⟩, ⟨1280, 720, 1⟩] ∧
    Cap.get_frame "HIGH" [⟨1280, 720, 0⟩, ⟨1280, 720, 1⟩] =
      .ok (some ⟨1280, 720, 0⟩, [⟨1280, 720, 1⟩]) ∧
    ([(⟨1280, 720, 0⟩ : Cap.Frame), ⟨1280, 720, 1⟩].getLast? = some ⟨1280, 720, 1⟩) ∧
    (Cap.Frame.mk 1280 720 0) ≠ ⟨1280, 720, 1⟩ := by
  refine ⟨rfl, ?_, rfl, by decide⟩
  rfl

/-- C7 amended: `get_frame(quality)` raises exactly when `quality` is
neither `'HIGH'` nor `'LOW'`; with a valid quality it returns `None` on an
empty buffer and otherwise the OLDEST buffered frame (the FIFO front,
which it removes) — native for `'HIGH'`, downscaled to the fixed 640x480
analysis size for `'LOW'` — without ever blocking (the function is total
on every buffer state). -/
theorem c7_amended_fifo_front (quality : String) (buf : List Cap.Frame) :
    ((¬(quality = "HIGH" ∨ quality = "LOW")) ↔
      ∃ e, Cap.get_frame quality buf = .error e) ∧
    ((quality = "HIGH" ∨ quality = "LOW") →
      Cap.get_frame quality buf =
        .ok (buf.head?.map (fun f => if quality = "HIGH" then f else Cap.resizeLow f),
          buf.tail)) ∧
    (∀ f : Cap.Frame, (Cap.resizeLow f).w = 640 ∧ (Cap.resizeLow f).h = 480) := by
  refine ⟨?_, ?_, fun f => ⟨rfl, rfl⟩⟩
  · unfold Cap.get_frame
    by_cases h : quality = "HIGH" ∨ quality = "LOW"
    · cases buf <;> simp [h]
    · simp [h]
  · intro h
    unfold Cap.get_frame
    cases buf <;> simp [h]

/-- C7 witness: a LOW-quality read on a one-frame buffer returns the frame
downscaled to 640x480 and empties the buffer. -/
theorem c7_witness :
    (("LOW" : String) = "HIGH" ∨ ("LOW" : String) = "LOW") ∧
    Cap.get_frame "LOW" [⟨1280, 720, 7⟩] = .ok (some ⟨640, 480, 7⟩, []) := by
  have h := (c7_amended_fifo_front "LOW" [⟨1280, 720, 7⟩]).2.1 (Or.inr rfl)
  refine ⟨Or.inr rfl, ?_⟩
  rw [h]
  rfl

namespace TCP

/-- Evaluation of `send_frame` from a connected state on a non-empty
payload: only the pack and the send outcome remain. -/
theorem send_frame_connected_eq (seq x t : Nat) (xs : List Nat) (cOk sOk : Bool) :
    send_frame ⟨seq, true⟩ (x :: xs) t cOk sOk =
      (match packHeader seq t (x :: xs).length with
       | none => .ok (false, ⟨seq, false⟩, [])
       | some header =>
         if sOk = true then .ok (true, ⟨seq + 1, true⟩, header ++ x :: xs)
         else .ok (false, ⟨seq, false⟩, [])) := rfl

/-- Evaluation of `send_frame` from a disconnected state when the
reconnect succeeds. -/
theorem send_frame_reconnect_eq (seq x t : Nat) (xs : List Nat) (sOk : Bool) :
    send_frame ⟨seq, false⟩ (x :: xs) t true sOk =
      (match packHeader seq t (x :: xs).length with
       | none => .ok (false, ⟨seq, false⟩, [])
       | some header =>
         if sOk = true then .ok (true, ⟨seq + 1, true⟩, header ++ x :: xs)
         else .ok (false, ⟨seq, false⟩, [])) := rfl

/-- Evaluation of `send_frame` from a disconnected state when the
reconnect fails: nothing is sent. -/
theorem send_frame_reconnect_fail_eq (seq x t : Nat) (xs : List Nat) (sOk : Bool) :
    send_frame ⟨seq, false⟩ (x :: xs) t false sOk = .ok (false, ⟨seq, false⟩, []) := rfl

/-- What a true result of the post-connect part of `send_frame` pins
down: the bytes on the wire and the incremented sequence number. -/
theorem sendCore_ok_true (seq t x : Nat) (xs : List Nat) (sOk : Bool)
    (s' : SenderState) (out : List Nat)
    (h : (match packHeader seq t (x :: xs).length with
          | none => (.ok (false, ⟨seq, false⟩, []) : Except String (Bool × SenderState × List Nat))
          | some header =>
            if sOk = true then .ok (true, ⟨seq + 1, true⟩, header ++ x :: xs)
            else .ok (false, ⟨seq, false⟩, [])) = .ok (true, s', out)) :
    out = be32 seq ++ be64 t ++ be32 (x :: xs).length ++ x :: xs ∧
      s' = ⟨seq + 1, true⟩ := by
  split at h
  · exact absurd h (by simp)
  · rename_i header hpack
    split at h
    · simp only [Except.ok.injEq, Prod.mk.injEq, true_and] at h
      obtain ⟨h1, h2⟩ := h
      have hhdr : header = be32 seq ++ be64 t ++ be32 (x :: xs).length := by
        unfold packHeader at hpack
        split at hpack
        · exact (Option.some.inj hpack).symm
        · exact absurd hpack (by simp)
      exact ⟨by rw [← h2, hhdr], h1.symm⟩
    · exact absurd h (by simp)

end TCP

/-- C8: every successful `send_frame` writes exactly the 4-byte big-endian
sequence number, the 8-byte big-endian timestamp field, and the 4-byte
big-endian payload length, immediately followed by exactly the payload
bytes; the sequence counter advances by exactly 1, so consecutive
successful sends carry consecutive sequence numbers; and a send attempted
while disconnected (as after any transport failure) succeeds only if the
reconnect succeeded first. -/
theorem c8_wire_format (s : TCP.SenderState) (d : List Nat) (t : Nat)
    (cOk sOk : Bool) (s' : TCP.SenderState) (out : List Nat)
    (h : TCP.send_frame s d t cOk sOk = .ok (true, s', out)) :
    out = TCP.be32 s.sequence ++ TCP.be64 t ++ TCP.be32 d.length ++ d ∧
    (TCP.be32 s.sequence).length = 4 ∧ (TCP.be64 t).length = 8 ∧
    (TCP.be32 d.length).length = 4 ∧
    s'.sequence = s.sequence + 1 ∧
    (s.connected = false → cOk = true) := by
  obtain ⟨seq, scon⟩ := s
  cases d with
  | nil => simp [TCP.send_frame] at h
  | cons x xs =>
    cases scon with
    | true =>
      rw [TCP.send_frame_connected_eq] at h
      obtain ⟨hout, hs'⟩ := TCP.sendCore_ok_true seq t x xs sOk s' out h
      exact ⟨hout, rfl, rfl, rfl, by rw [hs'], fun hf => Bool.noConfusion hf⟩
    | false =>
      cases cOk with
      | true =>
        rw [TCP.send_frame_reconnect_eq] at h
        obtain ⟨hout, hs'⟩ := TCP.sendCore_ok_true seq t x xs sOk s' out h
        exact ⟨hout, rfl, rfl, rfl, by rw [hs'], fun _ => rfl⟩
      | false =>
        rw [TCP.send_frame_reconnect_fail_eq] at h
        exact absurd h (by simp)

/-- C8 witness: a concrete successful send from sequence 0 emits the
16-byte header followed by the 1-byte payload and advances the counter. -/
theorem c8_witness :
    TCP.send_frame ⟨0, true⟩ [7] 0 true true =
      .ok (true, ⟨1, true⟩, TCP.be32 0 ++ TCP.be64 0 ++ TCP.be32 1 ++ [7]) ∧
    (TCP.be32 0 ++ TCP.be64 0 ++ TCP.be32 1 ++ [7] : List Nat) =
      TCP.be32 0 ++ TCP.be64 0 ++ TCP.be32 ([7] : List Nat).length ++ [7] ∧
    (TCP.be32 (0 : Nat)).length = 4 ∧ (TCP.be64 (0 : Nat)).length = 8 ∧
    (TCP.be32 ([7] : List Nat).length).length = 4 ∧
    (TCP.SenderState.mk 1 true).sequence = 0 + 1 ∧
    ((TCP.SenderState.mk 0 true).connected = false → true = true) :=
  ⟨rfl, c8_wire_format ⟨0, true⟩ [7] 0 true true ⟨1, true⟩ _ rfl⟩

/-- C10 counterexample: from a connected state with sequence 3, a failed
send returns `false` with the sequence unchanged but with the `connected`
flag cleared — the sender's state IS modified on error, refuting the
"state is unmodified on error" conjunct. -/
theorem c10_counterexample :
    TCP.send_frame ⟨3, true⟩ [7] 0 true false = .ok (false, ⟨3, false⟩, []) ∧
    TCP.SenderState.mk 3 false ≠ ⟨3, true⟩ :=
  ⟨rfl, by decide⟩

/-- C10 amended: `send_frame` raises exactly when the payload is empty;
otherwise the sequence counter is incremented exactly when the frame was
fully sent (result `true`, which also leaves the sender connected), and
any connect or send failure returns `false` with the sequence counter
unchanged, no payload bytes written, and the `connected` flag cleared
(recording the disconnect so the next attempt reconnects) — the rest of
the state, the sequence counter, is untouched. -/
theorem c10_amended_failure_state (s : TCP.SenderState) (d : List Nat) (t : Nat)
    (cOk sOk : Bool) :
    ((∃ e, TCP.send_frame s d t cOk sOk = .error e) ↔ d = []) ∧
    (∀ r s' out, TCP.send_frame s d t cOk sOk = .ok (r, s', out) →
      (r = true → s'.sequence = s.sequence + 1 ∧ s'.connected = true) ∧
      (r = false → s'.sequence = s.sequence ∧ s'.connected = false ∧ out = [])) := by
  obtain ⟨seq, scon⟩ := s
  constructor
  · cases d with
    | nil => simp [TCP.send_frame]
    | cons x xs =>
      simp only [List.cons_ne_nil, iff_false]
      rintro ⟨e, he⟩
      cases scon with
      | true =>
        rw [TCP.send_frame_connected_eq] at he
        split at he
        · exact absurd he (by simp)
        · split at he <;> exact absurd he (by simp)
      | false =>
        cases cOk with
        | true =>
          rw [TCP.send_frame_reconnect_eq] at he
          split at he
          · exact absurd he (by simp)
          · split at he <;> exact absurd he (by simp)
        | false =>
          rw [TCP.send_frame_reconnect_fail_eq] at he
          exact absurd he (by simp)
  · intro r s' out h
    cases d with
    | nil => simp [TCP.send_frame] at h
    | cons x xs =>
      have hfalse : ∀ hq : (.ok (false, (⟨seq, false⟩ : TCP.SenderState), ([] : List Nat)) :
          Except String (Bool × TCP.SenderState × List Nat)) = .ok (r, s', out),
          (r = true → s'.sequence = seq + 1 ∧ s'.connected = true) ∧
          (r = false → s'.sequence = seq ∧ s'.connected = false ∧ out = []) := by
        intro hq
        injection hq with hq1
        injection hq1 with h1 h23
        injection h23 with h2 h3
        subst h1; subst h2; subst h3
        exact ⟨fun hf => Bool.noConfusion hf, fun _ => ⟨rfl, rfl, rfl⟩⟩
      have hcore : ∀ hq : (match TCP.packHeader seq t (x :: xs).length with
            | none => (.ok (false, ⟨seq, false⟩, []) :
                Except String (Bool × TCP.SenderState × List Nat))
            | some header =>
              if sOk = true then .ok (true, ⟨seq + 1, true⟩, header ++ x :: xs)
              else .ok (false, ⟨seq, false⟩, [])) = .ok (r, s', out),
          (r = true → s'.sequence = seq + 1 ∧ s'.connected = true) ∧
          (r = false → s'.sequence = seq ∧ s'.connected = false ∧ out = []) := by
        intro hq
        split at hq
        · exact hfalse hq
        · split at hq
          · injection hq with hq1
            injection hq1 with h1 h23
            injection h23 with h2 h3
            subst h1; subst h2; subst h3
            exact ⟨fun _ => ⟨rfl, rfl⟩, fun hf => Bool.noConfusion hf⟩
          · exact hfalse hq
      cases scon with
      | true =>
        rw [TCP.send_frame_connected_eq] at h
        exact hcore h
      | false =>
        cases cOk with
        | true =>
          rw [TCP.send_frame_reconnect_eq] at h
          exact hcore h
        | false =>
          rw [TCP.send_frame_reconnect_fail_eq] at h
          exact hfalse h

/-- C10 witness: the failure clause of the amended claim applied to a
concrete failed send from sequence 3. -/
theorem c10_witness :
    TCP.send_frame ⟨3, true⟩ [7] 9 true false = .ok (false, ⟨3, false⟩, []) ∧
    (TCP.SenderState.mk 3 false).sequence = (TCP.SenderState.mk 3 true).sequence ∧
    (TCP.SenderState.mk 3 false).connected = false ∧ ([] : List Nat) = [] :=
  ⟨rfl, ((c10_amended_failure_state ⟨3, true⟩ [7] 9 true false).2 false ⟨3, false⟩ [] rfl).2 rfl⟩

namespace Chassis

/-- A finished handshake machine ignores further input. -/
theorem foldl_calStep_finished (lines : List String) (flag : Bool) :
    lines.foldl calStep ⟨.finished, flag⟩ = ⟨.finished, flag⟩ := by
  induction lines with
  | nil => rfl
  | cons l rest ih => rw [List.foldl_cons]; exact ih

/-- From the gyro-wait loop, the flag ends true exactly when the
remaining input contains the `GYRO_CALIBRATED` sentinel. -/
theorem foldl_calStep_waitGyro (lines : List String) :
    (lines.foldl calStep ⟨.waitGyro, false⟩).gyro_calibrated = true ↔
      "GYRO_CALIBRATED" ∈ lines := by
  induction lines with
  | nil => simp [List.foldl]
  | cons l rest ih =>
    rw [List.foldl_cons]
    by_cases h : l = "GYRO_CALIBRATED"
    · subst h
      rw [show calStep ⟨.waitGyro, false⟩ "GYRO_CALIBRATED" = ⟨.finished, true⟩ from rfl]
      rw [foldl_calStep_finished]
      simp
    · rw [show calStep ⟨CalPhase.waitGyro, false⟩ l = ⟨.waitGyro, false⟩ by
        simp [calStep, h]]
      rw [ih]
      simp [h, List.mem_cons]
      tauto

end Chassis

/-- C4: over every sequence of serial response lines, the `self_test`
handshake ends with `gyro_calibrated = true` exactly when some line
`SELF_TEST_COMPLETE` is followed, strictly later in the stream, by a line
`GYRO_CALIBRATED`; in particular the flag is never true when only one of
the two sentinels (or the two in the wrong order) was observed. -/
theorem c4_calibration_needs_both_sentinels (lines : List String) :
    (Chassis.self_test_run lines).gyro_calibrated = true ↔
      ∃ i j : Nat, i < j ∧ lines[i]? = some "SELF_TEST_COMPLETE" ∧
        lines[j]? = some "GYRO_CALIBRATED" := by
  unfold Chassis.self_test_run
  induction lines with
  | nil =>
    simp [List.foldl]
  | cons l rest ih =>
    rw [List.foldl_cons]
    by_cases h : l = "SELF_TEST_COMPLETE"
    · subst h
      rw [show Chassis.calStep ⟨.waitSelfTest, false⟩ "SELF_TEST_COMPLETE" =
          ⟨.waitGyro, false⟩ from rfl]
      rw [Chassis.foldl_calStep_waitGyro]
      constructor
      · intro hm
        obtain ⟨j, hj⟩ := List.mem_iff_getElem?.1 hm
        exact ⟨0, j + 1, Nat.succ_pos j, List.getElem?_cons_zero, by rwa [List.getElem?_cons_succ]⟩
      · rintro ⟨i, j, hij, hi, hj⟩
        match j, hij with
        | j + 1, _ =>
          rw [List.getElem?_cons_succ] at hj
          exact List.mem_iff_getElem?.2 ⟨j, hj⟩
    · rw [show Chassis.calStep ⟨.waitSelfTest, false⟩ l =
          ⟨.waitSelfTest, false⟩ by simp [Chassis.calStep, h]]
      rw [ih]
      constructor
      · rintro ⟨i, j, hij, hi, hj⟩
        exact ⟨i + 1, j + 1, Nat.succ_lt_succ hij,
          by rwa [List.getElem?_cons_succ], by rwa [List.getElem?_cons_succ]⟩
      · rintro ⟨i, j, hij, hi, hj⟩
        match i, j, hij with
        | 0, _, _ =>
          rw [List.getElem?_cons_zero] at hi
          exact absurd (Option.some.inj hi) h
        | i + 1, 0, hij => exact absurd hij (by omega)
        | i + 1, j + 1, hij =>
          rw [List.getElem?_cons_succ] at hi hj
          exact ⟨i, j, Nat.lt_of_succ_lt_succ hij, hi, hj⟩

namespace Main

/-- Unfolding `firstArgmin` on a cons when the tail has no minimum. -/
theorem firstArgmin_cons_none (d : Detection) (l : List Detection)
    (h : firstArgmin l = none) : firstArgmin (d :: l) = some d := by
  unfold firstArgmin
  rw [h]

/-- Unfolding `firstArgmin` on a cons against the tail's minimum. -/
theorem firstArgmin_cons_some (d c : Detection) (l : List Detection)
    (h : firstArgmin l = some c) :
    firstArgmin (d :: l) =
      if detDistance d ≤ detDistance c then some d else some c := by
  unfold firstArgmin
  rw [h]

/-- Function `firstArgmin` of a non-empty list always produces a detection. -/
theorem firstArgmin_cons_isSome (d : Detection) (l : List Detection) :
    ∃ b, firstArgmin (d :: l) = some b := by
  cases hm : firstArgmin l with
  | none => exact ⟨d, firstArgmin_cons_none d l hm⟩
  | some c =>
    rw [firstArgmin_cons_some d c l hm]
    by_cases hle : detDistance d ≤ detDistance c
    · exact ⟨d, if_pos hle⟩
    · exact ⟨c, if_neg hle⟩

/-- The detection produced by `firstArgmin` belongs to the list and its
center-to-image-center distance is minimal over the list. -/
theorem firstArgmin_min (l : List Detection) :
    ∀ b, firstArgmin l = some b →
      b ∈ l ∧ ∀ d ∈ l, detDistance b ≤ detDistance d := by
  induction l with
  | nil => intro b h; exact absurd h (by unfold firstArgmin; simp)
  | cons d rest ih =>
    intro b h
    cases hm : firstArgmin rest with
    | none =>
      rw [firstArgmin_cons_none d rest hm] at h
      cases h
      refine ⟨List.mem_cons_self d rest, ?_⟩
      intro x hx
      rcases List.mem_cons.1 hx with rfl | hx'
      · exact le_refl _
      · exact absurd hx' (by
          have : rest = [] := by
            cases rest with
            | nil => rfl
            | cons y ys => exact absurd (firstArgmin_cons_isSome y ys) (by simp [hm])
          simp [this])
    | some c =>
      have hc := ih c hm
      rw [firstArgmin_cons_some d c rest hm] at h
      by_cases hle : detDistance d ≤ detDistance c
      · rw [if_pos hle] at h
        cases h
        refine ⟨List.mem_cons_self d rest, ?_⟩
        intro x hx
        rcases List.mem_cons.1 hx with rfl | hx'
        · exact le_refl _
        · exact le_trans hle (hc.2 x hx')
      · rw [if_neg hle] at h
        cases h
        refine ⟨List.mem_cons_of_mem d hc.1, ?_⟩
        intro x hx
        rcases List.mem_cons.1 hx with rfl | hx'
        · exact le_of_lt (lt_of_not_le hle)
        · exact hc.2 x hx'

/-- The selection loop started with a current best `b` computes exactly
the leftmost minimum of `b` followed by the remaining detections (for a
batch of tracked-class detections): the loop replaces the best only on a
strictly smaller distance, the recursion keeps the head on ties — both
give the earliest minimum. -/
theorem foldl_selectStep_eq (l : List Detection) :
    ∀ b : Detection, (∀ d ∈ l, d.cls = 0) →
      l.foldl selectStep (some b) = firstArgmin (b :: l) := by
  induction l with
  | nil => intro b _; exact (firstArgmin_cons_none b [] rfl).symm
  | cons d rest ih =>
    intro b hall
    have hd : d.cls = 0 := hall d (List.mem_cons_self d rest)
    have hrest : ∀ x ∈ rest, x.cls = 0 := fun x hx => hall x (List.mem_cons_of_mem d hx)
    rw [List.foldl_cons]
    have hstep : selectStep (some b) d =
        if detDistance d < detDistance b then some d else some b := by
      unfold selectStep
      rw [if_pos hd]
    rw [hstep]
    by_cases hdb : detDistance d < detDistance b
    · rw [if_pos hdb, ih d hrest]
      obtain ⟨c, hc⟩ := firstArgmin_cons_isSome d rest
      have hcd : detDistance c ≤ detDistance d :=
        (firstArgmin_min (d :: rest) c hc).2 d (List.mem_cons_self d rest)
      rw [hc, firstArgmin_cons_some b c (d :: rest) hc,
        if_neg (not_le.2 (lt_of_le_of_lt hcd hdb))]
    · rw [if_neg hdb, ih b hrest]
      have hbd : detDistance b ≤ detDistance d := not_lt.1 hdb
      cases hm : firstArgmin rest with
      | none =>
        rw [firstArgmin_cons_none b rest hm,
          firstArgmin_cons_some b d (d :: rest) (firstArgmin_cons_none d rest hm),
          if_pos hbd]
      | some c =>
        have h2 := firstArgmin_cons_some d c rest hm
        by_cases hdc : detDistance d ≤ detDistance c
        · rw [firstArgmin_cons_some b c rest hm, if_pos (le_trans hbd hdc),
            firstArgmin_cons_some b d (d :: rest) (h2.trans (if_pos hdc)),
            if_pos hbd]
        · rw [firstArgmin_cons_some b c rest hm,
            firstArgmin_cons_some b c (d :: rest) (h2.trans (if_neg hdc))]

end Main

/-- C3 counterexample: two tracked-class detections both at pixel
distance 10 from the image center (equal minimal distance), listed with
track_id 5 first and track_id 2 second: the selection loop keeps the
first-seen detection with track_id 5, not the one with the lowest
track_id — refuting the "ties broken by lowest track_id" conjunct. -/
theorem c3_counterexample :
    Main.detDistance ⟨0, 5, ⟨960, 530, 980, 550⟩⟩ =
      Main.detDistance ⟨0, 2, ⟨940, 530, 960, 550⟩⟩ ∧
    Main.selectTarget [⟨0, 5, ⟨960, 530, 980, 550⟩⟩, ⟨0, 2, ⟨940, 530, 960, 550⟩⟩] =
      some ⟨0, 5, ⟨960, 530, 980, 550⟩⟩ ∧
    (5 : Nat) ≠ 2 := by
  have hda : Main.detDistance ⟨0, 5, ⟨960, 530, 980, 550⟩⟩ = Real.sqrt ((100 : ℚ) : ℝ) := by
    unfold Main.detDistance Main.calculate_target_center Main.IMAGE_WIDTH Main.IMAGE_HEIGHT
    norm_num
  have hdb : Main.detDistance ⟨0, 2, ⟨940, 530, 960, 550⟩⟩ = Real.sqrt ((100 : ℚ) : ℝ) := by
    unfold Main.detDistance Main.calculate_target_center Main.IMAGE_WIDTH Main.IMAGE_HEIGHT
    norm_num
  refine ⟨hda.trans hdb.symm, ?_, by decide⟩
  unfold Main.selectTarget
  rw [List.foldl_cons, List.foldl_cons, List.foldl_nil]
  have h1 : Main.selectStep none ⟨0, 5, ⟨960, 530, 980, 550⟩⟩ =
      some ⟨0, 5, ⟨960, 530, 980, 550⟩⟩ := by
    unfold Main.selectStep
    rw [if_pos rfl]
  rw [h1]
  have h2 : Main.selectStep (some ⟨0, 5, ⟨960, 530, 980, 550⟩⟩)
      ⟨0, 2, ⟨940, 530, 960, 550⟩⟩ =
      if Main.detDistance ⟨0, 2, ⟨940, 530, 960, 550⟩⟩ <
          Main.detDistance ⟨0, 5, ⟨960, 530, 980, 550⟩⟩ then
        some ⟨0, 2, ⟨940, 530, 960, 550⟩⟩
      else some ⟨0, 5, ⟨960, 530, 980, 550⟩⟩ := by
    unfold Main.selectStep
    rw [if_pos rfl]
  rw [h2, if_neg]
  rw [hda, hdb]
  exact lt_irrefl _

/-- C3 amended: for every non-empty batch of tracked-class detections,
the selection loop of `process_detection` picks a detection of minimum
Euclidean pixel distance from its bbox center to the image center; ties
are broken by the earliest position in the input list (the first-seen
detection wins), NOT by lowest track_id, so the choice is a function of
the input order rather than order-independent. -/
theorem c3_amended_min_distance_first_wins (l : List Main.Detection)
    (hne : l ≠ []) (hall : ∀ d ∈ l, d.cls = 0) :
    Main.selectTarget l = Main.firstArgmin l ∧
    ∃ b, Main.selectTarget l = some b ∧ b ∈ l ∧
      ∀ d ∈ l, Main.detDistance b ≤ Main.detDistance d := by
  obtain ⟨d, rest, rfl⟩ : ∃ d rest, l = d :: rest := by
    cases l with
    | nil => exact absurd rfl hne
    | cons d rest => exact ⟨d, rest, rfl⟩
  have hd : d.cls = 0 := hall d (List.mem_cons_self d rest)
  have hrest : ∀ x ∈ rest, x.cls = 0 := fun x hx => hall x (List.mem_cons_of_mem d hx)
  have h1 : Main.selectTarget (d :: rest) = rest.foldl Main.selectStep (some d) := by
    unfold Main.selectTarget
    rw [List.foldl_cons]
    have : Main.selectStep none d = some d := by
      unfold Main.selectStep
      rw [if_pos hd]
    rw [this]
  rw [h1, Main.foldl_selectStep_eq rest d hrest]
  obtain ⟨b, hb⟩ := Main.firstArgmin_cons_isSome d rest
  have hmin := Main.firstArgmin_min (d :: rest) b hb
  exact ⟨rfl, b, hb, hmin.1, hmin.2⟩

/-- C3 witness: the amended claim applied to a concrete singleton batch. -/
theorem c3_witness :
    (([⟨0, 1, ⟨100, 100, 200, 200⟩⟩] : List Main.Detection) ≠ []) ∧
    (∀ d ∈ ([⟨0, 1, ⟨100, 100, 200, 200⟩⟩] : List Main.Detection), d.cls = 0) ∧
    (Main.selectTarget [⟨0, 1, ⟨100, 100, 200, 200⟩⟩] =
        Main.firstArgmin [⟨0, 1, ⟨100, 100, 200, 200⟩⟩] ∧
      ∃ b, Main.selectTarget [⟨0, 1, ⟨100, 100, 200, 200⟩⟩] = some b ∧
        b ∈ ([⟨0, 1, ⟨100, 100, 200, 200⟩⟩] : List Main.Detection) ∧
        ∀ d ∈ ([⟨0, 1, ⟨100, 100, 200, 200⟩⟩] : List Main.Detection),
          Main.detDistance b ≤ Main.detDistance d) :=
  ⟨by simp, by decide,
    c3_amended_min_distance_first_wins [⟨0, 1, ⟨100, 100, 200, 200⟩⟩] (by simp) (by decide)⟩

namespace FireControl

/-- Evaluation of `processBox` on a tracked-class box carrying an id. -/
theorem processBox_with_id (now : ℚ) (s : TrackerState) (b : BoxDet) (i : Nat)
    (hc : b.cls = 0) (hb : b.tid? = some i) :
    processBox now s b = ⟨updatePool i (now, b.bbox) s.track_history, s.next_id⟩ := by
  unfold processBox
  rw [if_pos hc, hb]

/-- Evaluation of `processBox` on a tracked-class box without an id: fresh id. -/
theorem processBox_without_id (now : ℚ) (s : TrackerState) (b : BoxDet)
    (hc : b.cls = 0) (hb : b.tid? = none) :
    processBox now s b =
      ⟨updatePool s.next_id (now, b.bbox) s.track_history, s.next_id + 1⟩ := by
  unfold processBox
  rw [if_pos hc, hb]

/-- Evaluation of `processBox`: it skips boxes of other classes. -/
theorem processBox_other_class (now : ℚ) (s : TrackerState) (b : BoxDet)
    (hc : ¬b.cls = 0) : processBox now s b = s := by
  unfold processBox
  rw [if_neg hc]

/-- Evaluation of `touchedIds` on a box carrying an id. -/
theorem touchedIds_cons_with_id (nid : Nat) (b : BoxDet) (bs : List BoxDet) (i : Nat)
    (hc : b.cls = 0) (hb : b.tid? = some i) :
    touchedIds nid (b :: bs) = i :: touchedIds nid bs := by
  simp only [touchedIds]
  rw [if_pos hc, hb]

/-- Evaluation of `touchedIds` on a box without an id. -/
theorem touchedIds_cons_without_id (nid : Nat) (b : BoxDet) (bs : List BoxDet)
    (hc : b.cls = 0) (hb : b.tid? = none) :
    touchedIds nid (b :: bs) = nid :: touchedIds (nid + 1) bs := by
  simp only [touchedIds]
  rw [if_pos hc, hb]

/-- Evaluation of `touchedIds`: it skips boxes of other classes. -/
theorem touchedIds_cons_other_class (nid : Nat) (b : BoxDet) (bs : List BoxDet)
    (hc : ¬b.cls = 0) : touchedIds nid (b :: bs) = touchedIds nid bs := by
  simp only [touchedIds]
  rw [if_neg hc]

/-- Updating one id's history leaves every other id's lookup unchanged. -/
theorem lookupId_updatePool_ne (tid i : Nat) (e : ℚ × Box)
    (p : List (Nat × List (ℚ × Box))) (h : i ≠ tid) :
    lookupId tid (updatePool i e p) = lookupId tid p := by
  induction p with
  | nil =>
    simp only [updatePool, lookupId]
    rw [if_neg h]
  | cons hd rest ih =>
    obtain ⟨j, hist⟩ := hd
    simp only [updatePool]
    by_cases hj : j = i
    · rw [if_pos hj]
      simp only [lookupId]
      rw [if_neg (by omega), if_neg (by omega)]
    · rw [if_neg hj]
      simp only [lookupId]
      by_cases hjt : j = tid
      · rw [if_pos hjt, if_pos hjt]
      · rw [if_neg hjt, if_neg hjt]
        exact ih

/-- The key list of an updated pool: unchanged for an in-place update,
extended by the (previously absent) id for an insertion. -/
theorem keys_updatePool (tid : Nat) (e : ℚ × Box) (p : List (Nat × List (ℚ × Box))) :
    (updatePool tid e p).map Prod.fst = p.map Prod.fst ∨
    (tid ∉ p.map Prod.fst ∧
      (updatePool tid e p).map Prod.fst = p.map Prod.fst ++ [tid]) := by
  induction p with
  | nil => exact Or.inr ⟨by simp, rfl⟩
  | cons hd rest ih =>
    obtain ⟨j, hist⟩ := hd
    simp only [updatePool]
    by_cases hj : j = tid
    · rw [if_pos hj]
      exact Or.inl rfl
    · rw [if_neg hj]
      rcases ih with h | ⟨hnot, h⟩
      · exact Or.inl (by simp [h])
      · refine Or.inr ⟨?_, by simp [h]⟩
        simp only [List.map_cons, List.mem_cons]
        push_neg
        exact ⟨fun hc => hj hc.symm, hnot⟩

/-- An update keeps the pool's keys duplicate-free. -/
theorem nodup_keys_updatePool (tid : Nat) (e : ℚ × Box)
    (p : List (Nat × List (ℚ × Box))) (h : (p.map Prod.fst).Nodup) :
    ((updatePool tid e p).map Prod.fst).Nodup := by
  rcases keys_updatePool tid e p with heq | ⟨hnot, heq⟩
  · rw [heq]; exact h
  · rw [heq]
    rw [List.nodup_append]
    exact ⟨h, List.nodup_singleton tid, by
      intro a ha hc
      rw [List.mem_singleton] at hc
      exact hnot (hc ▸ ha)⟩

/-- One batch step keeps the pool's keys duplicate-free. -/
theorem nodup_keys_processBox (now : ℚ) (s : TrackerState) (b : BoxDet)
    (h : (s.track_history.map Prod.fst).Nodup) :
    ((processBox now s b).track_history.map Prod.fst).Nodup := by
  by_cases hc : b.cls = 0
  · cases hb : b.tid? with
    | some i => rw [processBox_with_id now s b i hc hb]; exact nodup_keys_updatePool _ _ _ h
    | none => rw [processBox_without_id now s b hc hb]; exact nodup_keys_updatePool _ _ _ h
  · rw [processBox_other_class now s b hc]; exact h

/-- Unfolding lemma: `detect` processes the batch head first. -/
theorem detect_cons (now : ℚ) (s : TrackerState) (b : BoxDet) (bs : List BoxDet) :
    detect now s (b :: bs) = detect now (processBox now s b) bs := rfl

/-- A whole `detect` batch keeps the pool's keys duplicate-free. -/
theorem nodup_keys_detect (now : ℚ) (boxes : List BoxDet) :
    ∀ s : TrackerState, (s.track_history.map Prod.fst).Nodup →
      ((detect now s boxes).track_history.map Prod.fst).Nodup := by
  induction boxes with
  | nil => intro s h; exact h
  | cons b bs ih =>
    intro s h
    rw [detect_cons]
    exact ih (processBox now s b) (nodup_keys_processBox now s b h)

/-- A `detect` batch leaves the history of every id it does not touch
unchanged. -/
theorem lookupId_detect_untouched (now : ℚ) (boxes : List BoxDet) :
    ∀ (s : TrackerState) (tid : Nat), tid ∉ touchedIds s.next_id boxes →
      lookupId tid (detect now s boxes).track_history = lookupId tid s.track_history := by
  induction boxes with
  | nil => intro s tid _; rfl
  | cons b bs ih =>
    intro s tid htid
    rw [detect_cons]
    by_cases hc : b.cls = 0
    · cases hb : b.tid? with
      | some i =>
        rw [touchedIds_cons_with_id s.next_id b bs i hc hb, List.mem_cons] at htid
        push_neg at htid
        rw [processBox_with_id now s b i hc hb]
        have hrec := ih ⟨updatePool i (now, b.bbox) s.track_history, s.next_id⟩ tid htid.2
        rw [hrec]
        exact lookupId_updatePool_ne tid i (now, b.bbox) s.track_history
          (fun hc2 => htid.1 hc2.symm)
      | none =>
        rw [touchedIds_cons_without_id s.next_id b bs hc hb, List.mem_cons] at htid
        push_neg at htid
        rw [processBox_without_id now s b hc hb]
        have hrec := ih ⟨updatePool s.next_id (now, b.bbox) s.track_history,
          s.next_id + 1⟩ tid htid.2
        rw [hrec]
        exact lookupId_updatePool_ne tid s.next_id (now, b.bbox) s.track_history
          (fun hc2 => htid.1 hc2.symm)
    · rw [touchedIds_cons_other_class s.next_id b bs hc] at htid
      rw [processBox_other_class now s b hc]
      exact ih s tid htid

/-- An absent key looks up to nothing. -/
theorem lookupId_eq_none (tid : Nat) (p : List (Nat × List (ℚ × Box)))
    (h : tid ∉ p.map Prod.fst) : lookupId tid p = none := by
  induction p with
  | nil => rfl
  | cons hd rest ih =>
    obtain ⟨i, hist⟩ := hd
    simp only [List.map_cons, List.mem_cons] at h
    push_neg at h
    simp only [lookupId]
    rw [if_neg (fun hc => h.1 hc.symm)]
    exact ih h.2

/-- Filtering a duplicate-free pool keeps or drops each key according to
the predicate on its (unique) entry. -/
theorem lookupId_filter (f : Nat × List (ℚ × Box) → Bool) (tid : Nat)
    (h : List (ℚ × Box)) :
    ∀ p : List (Nat × List (ℚ × Box)), (p.map Prod.fst).Nodup →
      lookupId tid p = some h →
      lookupId tid (p.filter f) = if f (tid, h) then some h else none := by
  intro p
  induction p with
  | nil => intro _ hl; cases hl
  | cons hd rest ih =>
    obtain ⟨i, hist⟩ := hd
    intro hnd hl
    simp only [List.map_cons, List.nodup_cons] at hnd
    simp only [lookupId] at hl
    rw [List.filter_cons]
    by_cases hi : i = tid
    · rw [if_pos hi] at hl
      injection hl with hl2
      subst hl2
      subst hi
      by_cases hf : f (i, hist) = true
      · rw [if_pos hf, if_pos hf]
        simp [lookupId]
      · rw [if_neg hf, if_neg hf]
        exact lookupId_eq_none i _
          (fun hmem => hnd.1 (((List.filter_sublist rest).map Prod.fst).subset hmem))
    · rw [if_neg hi] at hl
      by_cases hf : f (i, hist) = true
      · rw [if_pos hf]
        simp only [lookupId]
        rw [if_neg hi]
        exact ih hnd.2 hl
      · rw [if_neg hf]
        exact ih hnd.2 hl

end FireControl

/-- The concrete pre-batch tracker state for C1: one pooled target with
track_id 1, last seen at time 0. -/
def c1State : FireControl.TrackerState := ⟨[(1, [(0, ⟨0, 0, 10, 10⟩)])], 0⟩

/-- C1 counterexample: target 1 is in the pool before an empty update
batch (so its track_id is matched by no detection), the batch is
processed at time 1 and `cleanup_tracks` runs — yet target 1 is still in
the pool afterwards, refuting "no target survives a single missed
detection cycle": eviction only happens after more than 5 seconds of
staleness, and there is no per-batch `active` flag in the code at all. -/
theorem c1_counterexample :
    FireControl.lookupId 1 c1State.track_history = some [(0, ⟨0, 0, 10, 10⟩)] ∧
    FireControl.touchedIds c1State.next_id [] = [] ∧
    FireControl.lookupId 1
        (FireControl.cleanup_tracks 1 (FireControl.detect 1 c1State [])).track_history =
      some [(0, ⟨0, 0, 10, 10⟩)] := by
  refine ⟨rfl, rfl, ?_⟩
  show FireControl.lookupId 1
      (FireControl.cleanup_tracks 1 c1State).track_history = some [(0, ⟨0, 0, 10, 10⟩)]
  unfold FireControl.cleanup_tracks c1State
  rw [List.filter_cons]
  rw [if_pos (by
    show FireControl.keepTrack 1 (1, [((0 : ℚ), (⟨0, 0, 10, 10⟩ : Box))]) = true
    unfold FireControl.keepTrack
    norm_num)]
  simp [FireControl.lookupId]

/-- C1 amended: a target already pooled whose track_id is touched by no
detection of the batch keeps its history unchanged through the batch, and
the end-of-cycle `cleanup_tracks` removes it if and only if the cleanup
time is more than 5.0 seconds past the target's last recorded sample — a
target missed in a single batch but seen within the last 5 seconds stays
in the pool. -/
theorem c1_amended_eviction_is_staleness (s : FireControl.TrackerState)
    (boxes : List FireControl.BoxDet) (t1 t2 : ℚ) (tid : Nat)
    (h : List (ℚ × Box)) (e : ℚ × Box)
    (hnd : (s.track_history.map Prod.fst).Nodup)
    (hlook : FireControl.lookupId tid s.track_history = some h)
    (hlast : h.getLast? = some e)
    (htid : tid ∉ FireControl.touchedIds s.next_id boxes) :
    FireControl.lookupId tid
        (FireControl.cleanup_tracks t2 (FireControl.detect t1 s boxes)).track_history =
      if t2 - e.1 ≤ 5 then some h else none := by
  have hpres := FireControl.lookupId_detect_untouched t1 boxes s tid htid
  rw [hlook] at hpres
  have hnd' := FireControl.nodup_keys_detect t1 boxes s hnd
  unfold FireControl.cleanup_tracks
  rw [FireControl.lookupId_filter (FireControl.keepTrack t2) tid h _ hnd' hpres]
  have hkeep : FireControl.keepTrack t2 (tid, h) = decide (t2 - e.1 ≤ 5) := by
    unfold FireControl.keepTrack
    rw [show (tid, h).2 = h from rfl, hlast]
  rw [hkeep]
  by_cases hle : t2 - e.1 ≤ 5
  · rw [if_pos (by simpa using hle), if_pos hle]
  · rw [if_neg (by simpa using hle), if_neg hle]

/-- C1 witness: the amended claim applied to a concrete pool at cleanup
time 6 — six seconds after the last sample, so the target is evicted. -/
theorem c1_witness :
    (c1State.track_history.map Prod.fst).Nodup ∧
    FireControl.lookupId 1 c1State.track_history = some [(0, ⟨0, 0, 10, 10⟩)] ∧
    ([((0 : ℚ), (⟨0, 0, 10, 10⟩ : Box))].getLast? = some (0, ⟨0, 0, 10, 10⟩)) ∧
    (1 ∉ FireControl.touchedIds c1State.next_id []) ∧
    FireControl.lookupId 1
        (FireControl.cleanup_tracks 6 (FireControl.detect 1 c1State [])).track_history =
      if (6 : ℚ) - ((0 : ℚ), (⟨0, 0, 10, 10⟩ : Box)).1 ≤ 5 then
        some [(0, ⟨0, 0, 10, 10⟩)] else none :=
  ⟨by decide, rfl, rfl, by decide,
    c1_amended_eviction_is_staleness c1State [] 1 6 1 _ _ (by decide) rfl rfl (by decide)⟩
